import Mathlib

/-!
Verification development for the CodeMeter repository (TypeScript monorepo).

The definitions below are a shallow embedding of the core of the source:
the attribution engine (packages/core/src/attribution.ts), the JSONL log
store and its compaction (packages/ide-vscode/src/driver.ts, schema.ts),
the typed repositories (packages/ide-vscode/src/repositories.ts), the
session tracker (packages/ide-vscode/src/sessionTracker.ts) and the sync
coordinator (packages/ide-vscode/src/sync.ts).

Modelling conventions:
* JavaScript numbers holding millisecond timestamps and cent amounts are
  modelled as Int (all arithmetic on them in the source is integral).
* Confidence scores are modelled as Rat; every confidence the engine
  produces is an exact rational (1, 9/10, 7/10, 0, (1/2)/n) and no claim
  depends on binary floating point rounding.
* Optional fields become Option; JavaScript falsiness checks on them are
  modelled explicitly (note that the number 0 and the empty string are
  falsy, which the embedding reproduces where the source relies on it).
* A JavaScript Map is modelled as an association list in insertion order:
  setting an existing key replaces the value in place, setting a new key
  appends, and iteration order is list order, exactly as in JS.
-/

namespace CodeMeter

/-- A usage event (packages/core/src/types.ts, UsageEvent), with the token
usage and cost sub-objects flattened into scalar fields. -/
structure UsageEvent where
  eventId : String
  timestampMs : Int
  source : String
  model : String
  inputTokens : Int
  outputTokens : Int
  modelCents : Int
  totalCents : Int
deriving Repr, DecidableEq, Inhabited

/-- A project session segment (packages/core/src/types.ts, ProjectSession). -/
structure ProjectSession where
  id : String
  projectKey : String
  workspaceFolders : List String
  startMs : Int
  endMs : Option Int
  focused : Bool
  idle : Bool
  ideInstanceId : String
  ideType : String
deriving Repr, DecidableEq, Inhabited

/-- An attribution decision (packages/core/src/types.ts, AttributionRecord). -/
structure AttributionRecord where
  eventId : String
  projectKey : String
  confidence : Rat
  reason : String
  timestampMs : Int
deriving Repr, DecidableEq, Inhabited

/-- The full result of attributing one event
(packages/core/src/types.ts, AttributionResult). -/
structure AttributionResult where
  event : UsageEvent
  attribution : Option AttributionRecord
  confidence : Rat
  conflicts : List ProjectSession
deriving Repr, DecidableEq, Inhabited

/-- Active-session test exactly as the source writes it, both in
attribution.ts (findActiveSessions) and dashboardView.ts
(SessionRepository.getActiveSessions):
startMs <= t and (not endMs, or endMs >= t).
In JavaScript an endMs equal to 0 is falsy, so a session whose endMs is 0
passes the test regardless of t; the embedding keeps that behaviour. -/
def isActiveJs (t : Int) (s : ProjectSession) : Bool :=
  decide (s.startMs ≤ t) &&
    (match s.endMs with
     | none => true
     | some e => decide (e = 0) || decide (t ≤ e))

/-- Active-session test as the specification words it (spec section 4.4):
startMs ≤ t ≤ (endMs when present, plus infinity otherwise). Modelled from
the spec for the refinement comparison in claim C1. -/
def isActiveSpec (t : Int) (s : ProjectSession) : Bool :=
  decide (s.startMs ≤ t) &&
    (match s.endMs with
     | none => true
     | some e => decide (t ≤ e))

/-- AttributionEngine.findActiveSessions (attribution.ts). -/
def findActiveSessions (timestampMs : Int) (sessions : List ProjectSession) :
    List ProjectSession :=
  sessions.filter (fun s => isActiveJs timestampMs s)

/-- AttributionEngine.createAttributionResult (attribution.ts). -/
def createAttributionResult (e : UsageEvent) (s : ProjectSession)
    (confidence : Rat) (reason : String) : AttributionResult :=
  { event := e
    attribution := some
      { eventId := e.eventId
        projectKey := s.projectKey
        confidence := confidence
        reason := reason
        timestampMs := e.timestampMs }
    confidence := confidence
    conflicts := [] }

/-- AttributionEngine.createUnattributedResult (attribution.ts). -/
def createUnattributedResult (e : UsageEvent) (reason : String) :
    AttributionResult :=
  { event := e
    attribution := some
      { eventId := e.eventId
        projectKey := "unattributed"
        confidence := 0
        reason := reason
        timestampMs := e.timestampMs }
    confidence := 0
    conflicts := [] }

/-- AttributionEngine.createConflictResult (attribution.ts). The source
reads conflicts[0]; every call site passes a list of length at least two,
and the embedding uses headI (defaulting on [], a case the source never
reaches). The confidence 0.5 / conflicts.length is the exact rational. -/
def createConflictResult (e : UsageEvent) (conflicts : List ProjectSession)
    (reason : String) : AttributionResult :=
  let primarySession := conflicts.headI
  let confidence : Rat := (1 / 2) / (conflicts.length : Rat)
  { event := e
    attribution := some
      { eventId := e.eventId
        projectKey := primarySession.projectKey
        confidence := confidence
        reason := reason ++ " - using primary session"
        timestampMs := e.timestampMs }
    confidence := confidence
    conflicts := conflicts }

/-- Decision ladder of AttributionEngine.attributeEvent (attribution.ts),
applied to an already-computed active set. The six rungs, in source order,
are word-for-word the rungs of spec section 4.4, so the ladder is factored
out and each side (code and spec) supplies its own active-session set. -/
def decisionLadder (e : UsageEvent) (activeSessions : List ProjectSession) :
    AttributionResult :=
  if activeSessions.length = 0 then
    createUnattributedResult e ("No active sessions")
  else
    let focusedSessions := activeSessions.filter (fun s => s.focused)
    let nonIdleSessions := focusedSessions.filter (fun s => !s.idle)
    if nonIdleSessions.length = 1 then
      createAttributionResult e nonIdleSessions.headI 1
        ("Single focused, non-idle session")
    else if focusedSessions.length = 1 then
      createAttributionResult e focusedSessions.headI (9 / 10)
        ("Single focused session")
    else if activeSessions.length = 1 then
      createAttributionResult e activeSessions.headI (7 / 10)
        ("Single active session")
    else if focusedSessions.length > 1 then
      createConflictResult e focusedSessions ("Multiple focused sessions")
    else
      createConflictResult e activeSessions ("Multiple active sessions")

/-- AttributionEngine.attributeEvent (attribution.ts). -/
def attributeEvent (e : UsageEvent) (sessions : List ProjectSession) :
    AttributionResult :=
  decisionLadder e (findActiveSessions e.timestampMs sessions)

/-- Modelled from the spec: the attribution function exactly as section 4.4
words it, using the spec active-session predicate. Used as the comparison
point for claim C1. -/
def specAttribute (e : UsageEvent) (sessions : List ProjectSession) :
    AttributionResult :=
  decisionLadder e (sessions.filter (fun s => isActiveSpec e.timestampMs s))

/-- Concrete event at t = 1000 used by the spec test cases. -/
def ev1000 : UsageEvent :=
  { eventId := "evt-1", timestampMs := 1000, source := "cursor-dashboard"
    model := "gpt-4", inputTokens := 10, outputTokens := 10
    modelCents := 1, totalCents := 1 }

/-- Session A of the spec test cases: project p1, started at 0, focused,
not idle, still open. -/
def sessionA : ProjectSession :=
  { id := "sess-a", projectKey := "p1", workspaceFolders := []
    startMs := 0, endMs := none, focused := true, idle := false
    ideInstanceId := "inst-1", ideType := "cursor" }

/-- Session B of the spec test cases: as sessionA but project p2. -/
def sessionB : ProjectSession :=
  { id := "sess-b", projectKey := "p2", workspaceFolders := []
    startMs := 0, endMs := none, focused := true, idle := false
    ideInstanceId := "inst-2", ideType := "cursor" }

/-- Session with endMs = 0: closed at the epoch. JavaScript treats this
endMs as falsy, the spec formula endMs ?? infinity does not. -/
def sessionZeroEnd : ProjectSession :=
  { id := "sess-z", projectKey := "p1", workspaceFolders := []
    startMs := 0, endMs := some 0, focused := true, idle := false
    ideInstanceId := "inst-1", ideType := "cursor" }

/-- C1 counterexample: on a session with endMs = 0 the code counts the
session active at t = 1000 (endMs is falsy in JavaScript) and attributes
the event to p1 with confidence 1, while the ladder under the claim's
active test (startMs ≤ t ≤ endMs, with endMs = 0) sees no active session
and returns unattributed with confidence 0. -/
theorem attributeEvent_spec_ladder_zero_endMs_cex :
    (attributeEvent ev1000 [sessionZeroEnd]).confidence = 1 ∧
    (specAttribute ev1000 [sessionZeroEnd]).confidence = 0 ∧
    attributeEvent ev1000 [sessionZeroEnd] ≠ specAttribute ev1000 [sessionZeroEnd] := by
  have h1 : (attributeEvent ev1000 [sessionZeroEnd]).confidence = 1 := by
    norm_num [attributeEvent, decisionLadder, findActiveSessions, isActiveJs,
      createAttributionResult, ev1000, sessionZeroEnd]
  have h2 : (specAttribute ev1000 [sessionZeroEnd]).confidence = 0 := by
    norm_num [specAttribute, decisionLadder, isActiveSpec,
      createUnattributedResult, ev1000, sessionZeroEnd]
  refine ⟨h1, h2, fun h => ?_⟩
  rw [h, h2] at h1
  norm_num at h1

/-- C1 (amended): attributeEvent implements the spec decision ladder for
every event and every session list in which no session has endMs = 0 (the
code treats an endMs of 0 as still-open because 0 is falsy in JavaScript);
and the three concrete cases of the claim hold: a single focused non-idle
session gives that project with confidence 1, no sessions give
unattributed with confidence 0, and two focused non-idle sessions give
nominal p1 with confidence 1/4 and a conflict set of size 2. -/
theorem attributeEvent_spec_ladder_amended (e : UsageEvent)
    (ss : List ProjectSession) (h : ∀ s ∈ ss, s.endMs ≠ some 0) :
    attributeEvent e ss = specAttribute e ss ∧
    ((attributeEvent ev1000 [sessionA]).attribution.map
        (fun a => (a.projectKey, a.confidence))) = some ("p1", 1) ∧
    ((attributeEvent ev1000 []).attribution.map
        (fun a => (a.projectKey, a.confidence))) = some ("unattributed", 0) ∧
    ((attributeEvent ev1000 [sessionA, sessionB]).attribution.map
        (fun a => (a.projectKey, a.confidence))) = some ("p1", 1 / 4) ∧
    (attributeEvent ev1000 [sessionA, sessionB]).conflicts.length = 2 := by
  have hfilt : findActiveSessions e.timestampMs ss =
      ss.filter (fun s => isActiveSpec e.timestampMs s) := by
    unfold findActiveSessions
    apply List.filter_congr
    intro s hs
    have hne := h s hs
    unfold isActiveJs isActiveSpec
    cases he : s.endMs with
    | none => rfl
    | some v =>
        have hv : v ≠ 0 := by
          intro hv0
          exact hne (by rw [he, hv0])
        simp [hv]
  have hmain : attributeEvent e ss = specAttribute e ss := by
    unfold attributeEvent specAttribute
    rw [hfilt]
  refine ⟨hmain, ?_, ?_, ?_, ?_⟩
  · norm_num [attributeEvent, decisionLadder, findActiveSessions, isActiveJs,
      createAttributionResult, ev1000, sessionA]
  · norm_num [attributeEvent, decisionLadder, findActiveSessions,
      createUnattributedResult, ev1000]
  · norm_num [attributeEvent, decisionLadder, findActiveSessions, isActiveJs,
      createConflictResult, ev1000, sessionA, sessionB]
  · norm_num [attributeEvent, decisionLadder, findActiveSessions, isActiveJs,
      createConflictResult, ev1000, sessionA, sessionB]

/-- C1 amended witness: the amended theorem applied at the concrete inputs
of the spec test case. -/
theorem attributeEvent_spec_ladder_amended_witness :
    attributeEvent ev1000 [sessionA] = specAttribute ev1000 [sessionA] :=
  (attributeEvent_spec_ladder_amended ev1000 [sessionA] (by decide)).1

/-! ### JavaScript Map model

A JS Map keyed by strings, as an association list in insertion order.
Map.set replaces the value of an existing key in place and appends a new
key at the end; iteration (map.values()) is list order. -/

/-- Map.set semantics on an association list. -/
def mapSet {α : Type} : List (String × α) → String → α → List (String × α)
  | [], k, v => [(k, v)]
  | (k', v') :: rest, k, v =>
      if k' = k then (k, v) :: rest else (k', v') :: mapSet rest k v

/-- Map.get semantics on an association list. -/
def mapLookup {α : Type} : List (String × α) → String → Option α
  | [], _ => none
  | (k', v') :: rest, k => if k' = k then some v' else mapLookup rest k

/-- Iteration order of map.values(). -/
def mapValues {α : Type} (m : List (String × α)) : List α :=
  m.map (fun p => p.2)

/-- Key list of the map, in insertion order. -/
def mapKeys {α : Type} (m : List (String × α)) : List String :=
  m.map (fun p => p.1)

theorem mapSet_mapSet_same {α : Type} (m : List (String × α)) (k : String) (v : α) :
    mapSet (mapSet m k v) k v = mapSet m k v := by
  induction m with
  | nil => simp [mapSet]
  | cons p rest ih =>
      obtain ⟨k', v'⟩ := p
      by_cases hk : k' = k
      · simp [mapSet, hk]
      · simp [mapSet, hk, ih]

theorem mapLookup_mapSet_self {α : Type} (m : List (String × α)) (k : String) (v : α) :
    mapLookup (mapSet m k v) k = some v := by
  induction m with
  | nil => simp [mapSet, mapLookup]
  | cons p rest ih =>
      obtain ⟨k', v'⟩ := p
      by_cases hk : k' = k
      · simp [mapSet, hk, mapLookup]
      · simp [mapSet, hk, mapLookup, ih]

theorem mapLookup_mapSet_ne {α : Type} (m : List (String × α)) (k k2 : String) (v : α)
    (h : k ≠ k2) : mapLookup (mapSet m k v) k2 = mapLookup m k2 := by
  induction m with
  | nil => simp [mapSet, mapLookup, h]
  | cons p rest ih =>
      obtain ⟨k', v'⟩ := p
      by_cases hk : k' = k
      · subst hk
        simp [mapSet, mapLookup, h]
      · simp [mapSet, hk, mapLookup, ih]

theorem mem_mapSet {α : Type} {k : String} {v : α} :
    ∀ {m : List (String × α)} {p : String × α},
      p ∈ mapSet m k v → p = (k, v) ∨ p ∈ m := by
  intro m
  induction m with
  | nil =>
      intro p h
      simpa [mapSet] using h
  | cons q rest ih =>
      intro p h
      obtain ⟨k', v'⟩ := q
      by_cases hk : k' = k
      · simp only [mapSet, if_pos hk] at h
        rcases List.mem_cons.mp h with h1 | h1
        · exact Or.inl h1
        · exact Or.inr (List.mem_cons_of_mem _ h1)
      · simp only [mapSet, if_neg hk] at h
        rcases List.mem_cons.mp h with h1 | h1
        · exact Or.inr (by simp [h1])
        · rcases ih h1 with h2 | h2
          · exact Or.inl h2
          · exact Or.inr (List.mem_cons_of_mem _ h2)

theorem mapKeys_mapSet {α : Type} (m : List (String × α)) (k : String) (v : α) :
    mapKeys (mapSet m k v) = if k ∈ mapKeys m then mapKeys m else mapKeys m ++ [k] := by
  induction m with
  | nil => simp [mapSet, mapKeys]
  | cons p rest ih =>
      obtain ⟨k', v'⟩ := p
      by_cases hk : k' = k
      · subst hk
        simp [mapSet, mapKeys]
      · have hk2 : ¬ k = k' := fun h => hk h.symm
        simp only [mapSet, if_neg hk, mapKeys, List.map_cons] at ih ⊢
        rw [ih]
        by_cases hmem : k ∈ rest.map (fun p => p.1)
        · simp [hmem, hk2]
        · simp [hmem, hk2]

theorem mapKeys_mapSet_nodup {α : Type} (m : List (String × α)) (k : String) (v : α)
    (h : (mapKeys m).Nodup) : (mapKeys (mapSet m k v)).Nodup := by
  rw [mapKeys_mapSet]
  by_cases hmem : k ∈ mapKeys m
  · simpa [hmem]
  · simpa [hmem] using List.Nodup.append h (by simp) (by simpa using hmem)

theorem mapLookup_of_mem_nodup {α : Type} {m : List (String × α)} {p : String × α}
    (hnd : (mapKeys m).Nodup) (h : p ∈ m) : mapLookup m p.1 = some p.2 := by
  induction m with
  | nil => cases h
  | cons q rest ih =>
      obtain ⟨k', v'⟩ := q
      have hnd2 : k' ∉ mapKeys rest ∧ (mapKeys rest).Nodup := by
        simpa [mapKeys] using hnd
      rcases List.mem_cons.mp h with h1 | h1
      · rw [h1]
        simp [mapLookup]
      · have hk : k' ≠ p.1 := by
          intro he
          apply hnd2.1
          rw [he]
          simpa [mapKeys] using List.mem_map_of_mem (fun q => q.1) h1
        simp [mapLookup, hk, ih hnd2.2 h1]

/-! ### Events store: log lines, read-time merge and compaction

A line of events.jsonl parses either to an upsert wrapper (the only shape
the repository appends: a JSON object with type upsert and an event field)
or, after the snapshot fast path of readJsonl, to a bare UsageEvent (the
snapshot file stores the unwrapped entities). A bare entity has neither a
type field nor an event field, so both compactByKind (which requires
type = upsert) and EventRepository.getAll (which reads the event field)
skip it. -/

inductive EventLine where
  | upsert (event : UsageEvent)
  | bare (event : UsageEvent)
deriving Repr, DecidableEq

/-- One step of the events merge loop shared by compactByKind (sync.ts,
kind events: skip unless type = upsert and event.eventId is truthy, then
map.set(eventId, record)) and EventRepository.getAll (dashboardView.ts:
skip unless the record has an event field with truthy eventId, then
map.set). On EventLine the two guards accept exactly the same lines.
The empty string is falsy in JavaScript, hence the eventId guard. -/
def eventsStep (m : List (String × UsageEvent)) : EventLine → List (String × UsageEvent)
  | EventLine.upsert e => if e.eventId = "" then m else mapSet m e.eventId e
  | EventLine.bare _ => m

/-- Merge map over a full record list. -/
def eventsMap (records : List EventLine) : List (String × UsageEvent) :=
  records.foldl eventsStep []

/-- EventRepository.getAll (dashboardView.ts): read-time merge by eventId,
values in insertion order. -/
def eventsGetAll (records : List EventLine) : List UsageEvent :=
  mapValues (eventsMap records)

/-- Snapshot content built by compactByKind for kind events (sync.ts):
the deduplicated events, in first-insertion order. The snapshot file is
JSON.stringify of this list, which is deterministic, so list equality
models byte equality of snapshot content. -/
def compactEventsSnapshot (records : List EventLine) : List UsageEvent :=
  mapValues (eventsMap records)

/-- Canonical rewritten log built by compactByKind for kind events:
each surviving event rewrapped as an upsert line. -/
def compactEventsLog (records : List EventLine) : List EventLine :=
  (compactEventsSnapshot records).map EventLine.upsert

/-- On-disk state of one store kind: the JSONL log, the snapshot file if
present, and the two temporary files the compactor writes. None for a
temp or snapshot file means the file does not exist. -/
structure KindFs where
  log : List EventLine
  snapshot : Option (List UsageEvent)
  snapTmp : Option (List UsageEvent)
  logTmp : Option (List EventLine)
deriving Repr, DecidableEq

/-- readJsonl (schema.ts): prefer the snapshot file when present (it
parses as a JSON array of bare entities), otherwise scan the log. -/
def storeRead (st : KindFs) : List EventLine :=
  match st.snapshot with
  | some snap => snap.map EventLine.bare
  | none => st.log

/-- JsonlStorageDriver.compact for kind events (driver section of
sync.ts), cut off after its first k file mutations, modelling an
exception thrown at that point. The mutation steps, in source order, are:
write the snapshot temp file, rename it over the snapshot, write the log
temp file, rename it over the log. The record list is read once before
any mutation. k ≥ 4 is the completed compaction. The lock file is
acquired before and released after these steps and touches neither the
log nor the snapshot, so it is not part of the state. -/
def compactUpTo (st : KindFs) (k : Nat) : KindFs :=
  let records := storeRead st
  let snap := compactEventsSnapshot records
  let canon := compactEventsLog records
  match k with
  | 0 => st
  | 1 => { st with snapTmp := some snap }
  | 2 => { st with snapTmp := none, snapshot := some snap }
  | 3 => { st with snapTmp := none, snapshot := some snap, logTmp := some canon }
  | _ + 4 => { st with snapTmp := none, snapshot := some snap,
                       logTmp := none, log := canon }

/-- Completed JsonlStorageDriver.compact for kind events. -/
def compactStore (st : KindFs) : KindFs :=
  compactUpTo st 4

/-! ### Attributions store -/

/-- A line of attributions.jsonl: the upsert wrapper the repository
appends, or a bare entity from the snapshot fast path. -/
inductive AttribLine where
  | upsert (attribution : AttributionRecord)
  | bare (attribution : AttributionRecord)
deriving Repr, DecidableEq

/-- AttributionRepository.getByEventId (dashboardView.ts): linear scan
keeping the last record whose attribution.eventId matches. -/
def attribGetByEventId (records : List AttribLine) (eventId : String) :
    Option AttributionRecord :=
  records.foldl
    (fun last r =>
      match r with
      | AttribLine.upsert a => if a.eventId = eventId then some a else last
      | AttribLine.bare _ => last)
    none

theorem eventsMap_inv (records : List EventLine) :
    ∀ m : List (String × UsageEvent),
      (∀ p ∈ m, p.2.eventId = p.1) → (mapKeys m).Nodup →
      (∀ p ∈ records.foldl eventsStep m, p.2.eventId = p.1) ∧
        (mapKeys (records.foldl eventsStep m)).Nodup := by
  induction records with
  | nil => intro m h1 h2; exact ⟨h1, h2⟩
  | cons r rest ih =>
      intro m h1 h2
      rw [List.foldl_cons]
      cases r with
      | bare e => exact ih m h1 h2
      | upsert e =>
          by_cases he : e.eventId = ""
          · simpa [eventsStep, he] using ih m h1 h2
          · have hm' : ∀ p ∈ mapSet m e.eventId e, p.2.eventId = p.1 := by
              intro p hp
              rcases mem_mapSet hp with h3 | h3
              · rw [h3]
              · exact h1 p h3
            simpa [eventsStep, he] using
              ih (mapSet m e.eventId e) hm' (mapKeys_mapSet_nodup m e.eventId e h2)

theorem mem_mapKeys_mapSet_self {α : Type} (m : List (String × α)) (k : String) (v : α) :
    k ∈ mapKeys (mapSet m k v) := by
  rw [mapKeys_mapSet]
  by_cases hmem : k ∈ mapKeys m
  · simp [hmem]
  · simp [hmem]

theorem countP_mapValues_zero {K : String} :
    ∀ {m : List (String × UsageEvent)},
      (∀ p ∈ m, p.2.eventId = p.1) → K ∉ mapKeys m →
      (mapValues m).countP (fun v => decide (v.eventId = K)) = 0 := by
  intro m
  induction m with
  | nil => intro _ _; rfl
  | cons p rest ih =>
      intro h1 h2
      obtain ⟨k', v'⟩ := p
      have h2' : K ∉ k' :: mapKeys rest := h2
      have hv' : v'.eventId = k' := h1 (k', v') (by simp)
      have hk : ¬ v'.eventId = K := by
        rw [hv']
        intro he
        exact h2' (by rw [← he]; exact List.mem_cons_self _ _)
      have hrest : K ∉ mapKeys rest := fun hr => h2' (List.mem_cons_of_mem _ hr)
      have htail := ih (fun q hq => h1 q (List.mem_cons_of_mem _ hq)) hrest
      show List.countP (fun v => decide (v.eventId = K)) (v' :: mapValues rest) = 0
      rw [List.countP_cons]
      simp [hk, htail]

theorem countP_mapValues_one {K : String} :
    ∀ {m : List (String × UsageEvent)},
      (∀ p ∈ m, p.2.eventId = p.1) → (mapKeys m).Nodup → K ∈ mapKeys m →
      (mapValues m).countP (fun v => decide (v.eventId = K)) = 1 := by
  intro m
  induction m with
  | nil => intro _ _ h; simp [mapKeys] at h
  | cons p rest ih =>
      intro h1 h2 h3
      obtain ⟨k', v'⟩ := p
      have hv' : v'.eventId = k' := h1 (k', v') (by simp)
      have h2' : (k' :: mapKeys rest).Nodup := h2
      have hnd := List.nodup_cons.mp h2'
      have h3' : K ∈ k' :: mapKeys rest := h3
      by_cases hk : k' = K
      · subst hk
        have hzero : (mapValues rest).countP (fun v => decide (v.eventId = k')) = 0 :=
          countP_mapValues_zero (fun q hq => h1 q (List.mem_cons_of_mem _ hq)) hnd.1
        show List.countP (fun v => decide (v.eventId = k')) (v' :: mapValues rest) = 1
        rw [List.countP_cons, hzero]
        simp [hv']
      · have hKrest : K ∈ mapKeys rest := by
          rcases List.mem_cons.mp h3' with h4 | h4
          · exact absurd h4.symm hk
          · exact h4
        have hone := ih (fun q hq => h1 q (List.mem_cons_of_mem _ hq)) hnd.2 hKrest
        have hne : ¬ v'.eventId = K := by rw [hv']; exact hk
        show List.countP (fun v => decide (v.eventId = K)) (v' :: mapValues rest) = 1
        rw [List.countP_cons, hone]
        simp [hne]

/-- C4: appending the same upsert line twice (EventRepository.create run
twice on the same UsageEvent) gives, for any prior log: the same
compacted snapshot as a single append, exactly one snapshot entry with
that eventId, the same EventRepository.getAll read-time merge, and the
same stored attribution for the event (the attribution upsert keyed by
eventId resolves identically whether appended once or twice). -/
theorem duplicate_event_ingest_idempotent (L : List EventLine) (e : UsageEvent)
    (A : List AttribLine) (a : AttributionRecord) (h : e.eventId ≠ "") :
    compactEventsSnapshot (L ++ [EventLine.upsert e, EventLine.upsert e]) =
      compactEventsSnapshot (L ++ [EventLine.upsert e]) ∧
    (compactEventsSnapshot (L ++ [EventLine.upsert e, EventLine.upsert e])).countP
      (fun v => decide (v.eventId = e.eventId)) = 1 ∧
    eventsGetAll (L ++ [EventLine.upsert e, EventLine.upsert e]) =
      eventsGetAll (L ++ [EventLine.upsert e]) ∧
    attribGetByEventId (A ++ [AttribLine.upsert a, AttribLine.upsert a]) e.eventId =
      attribGetByEventId (A ++ [AttribLine.upsert a]) e.eventId := by
  have hmap : eventsMap (L ++ [EventLine.upsert e, EventLine.upsert e]) =
      eventsMap (L ++ [EventLine.upsert e]) := by
    unfold eventsMap
    rw [List.foldl_append, List.foldl_append]
    simp only [List.foldl_cons, List.foldl_nil]
    show eventsStep (eventsStep _ (EventLine.upsert e)) (EventLine.upsert e) =
      eventsStep _ (EventLine.upsert e)
    unfold eventsStep
    simp [h, mapSet_mapSet_same]
  have hsingle : eventsMap (L ++ [EventLine.upsert e]) =
      mapSet (eventsMap L) e.eventId e := by
    unfold eventsMap
    rw [List.foldl_append]
    simp [eventsStep, h]
  have hinvL := eventsMap_inv L [] (by simp) (by simp [mapKeys])
  have hinv := eventsMap_inv (L ++ [EventLine.upsert e]) [] (by simp) (by simp [mapKeys])
  refine ⟨?_, ?_, ?_, ?_⟩
  · unfold compactEventsSnapshot
    rw [hmap]
  · unfold compactEventsSnapshot
    rw [hmap]
    refine countP_mapValues_one hinv.1 hinv.2 ?_
    show e.eventId ∈ mapKeys (eventsMap (L ++ [EventLine.upsert e]))
    rw [hsingle]
    exact mem_mapKeys_mapSet_self _ _ _
  · unfold eventsGetAll
    rw [hmap]
  · unfold attribGetByEventId
    rw [List.foldl_append, List.foldl_append]
    simp only [List.foldl_cons, List.foldl_nil]
    by_cases ha : a.eventId = e.eventId
    · simp [ha]
    · simp [ha]

/-- C4 witness: the theorem at a one-line log, a concrete event and a
concrete attribution record. -/
theorem duplicate_event_ingest_idempotent_witness :
    compactEventsSnapshot [EventLine.upsert ev1000, EventLine.upsert ev1000] =
      compactEventsSnapshot [EventLine.upsert ev1000] :=
  (duplicate_event_ingest_idempotent [] ev1000 []
    { eventId := "evt-1", projectKey := "p1", confidence := 1,
      reason := "test", timestampMs := 1000 } (by decide)).1

/-- Concrete one-event store with no snapshot file. -/
def store0 : KindFs :=
  { log := [EventLine.upsert ev1000], snapshot := none
    snapTmp := none, logTmp := none }

/-- C5: compacting twice with no writes in between is not idempotent; the
second run destroys the data. The first compact of a one-upsert log
writes the snapshot with the one event; the second compact reads that
snapshot back (readJsonl prefers the snapshot file), finds bare entities
without the type upsert wrapper, filters every one of them out, and
writes an empty snapshot and truncates the log. -/
theorem compact_twice_not_idempotent :
    (compactStore store0).snapshot = some [ev1000] ∧
    (compactStore (compactStore store0)).snapshot = some [] ∧
    (compactStore (compactStore store0)).snapshot ≠ (compactStore store0).snapshot ∧
    (compactStore (compactStore store0)).log = [] := by
  decide

/-- C7 counterexample: a compaction that fails after the snapshot rename
but before the log rewrite (two completed mutation steps) has already
replaced the snapshot file, so the snapshot is not left untouched. -/
theorem compact_midway_snapshot_touched_cex :
    store0.snapshot = none ∧
    (compactUpTo store0 2).snapshot = some [ev1000] ∧
    (compactUpTo store0 2).log = store0.log ∧
    (compactUpTo store0 2).snapshot ≠ store0.snapshot := by
  decide

/-- C7 (amended): wherever compact(kind) stops, each of the log file and
the snapshot file holds either its original content or its complete new
content (every write goes through a temp file followed by a rename, so no
partially-written main file is observable); the log is untouched unless
the final rename ran; but the snapshot is swapped in before the log
rewrite, so only a failure before the snapshot rename (at most one
completed mutation step) leaves both files untouched. -/
theorem compact_partial_failure_atomicity (st : KindFs) (k : Nat) :
    ((compactUpTo st k).log = st.log ∨
      (compactUpTo st k).log = compactEventsLog (storeRead st)) ∧
    ((compactUpTo st k).snapshot = st.snapshot ∨
      (compactUpTo st k).snapshot = some (compactEventsSnapshot (storeRead st))) ∧
    (k ≤ 3 → (compactUpTo st k).log = st.log) ∧
    (k ≤ 1 → (compactUpTo st k).snapshot = st.snapshot) := by
  match k with
  | 0 => exact ⟨Or.inl rfl, Or.inl rfl, fun _ => rfl, fun _ => rfl⟩
  | 1 => exact ⟨Or.inl rfl, Or.inl rfl, fun _ => rfl, fun _ => rfl⟩
  | 2 => exact ⟨Or.inl rfl, Or.inr rfl, fun _ => rfl, fun h => absurd h (by decide)⟩
  | 3 => exact ⟨Or.inl rfl, Or.inr rfl, fun _ => rfl, fun h => absurd h (by decide)⟩
  | n + 4 =>
      exact ⟨Or.inr rfl, Or.inr rfl,
        fun h => absurd h (by omega), fun h => absurd h (by omega)⟩

/-- C7 amended witness: the amended theorem at the concrete store, with
the failure point just before the log rename. -/
theorem compact_partial_failure_atomicity_witness :
    (compactUpTo store0 3).log = store0.log :=
  (compact_partial_failure_atomicity store0 3).2.2.1 (by decide)

/-! ### Sessions store

Session records (dashboardView.ts, SessionRepository): a create line
carrying a full session, or an update line carrying a partial patch.
The source only ever patches endMs (updateEndTime) or focused and idle
together (updateFlags); the patch model carries exactly the fields a
Partial of ProjectSession can override in those shapes. -/

/-- A partial session patch; none means the field is absent from the
patch object and the previous value survives the spread. -/
structure SessionPatch where
  endMs : Option Int := none
  focused : Option Bool := none
  idle : Option Bool := none
deriving Repr, DecidableEq

/-- JavaScript object spread of a patch over a session. -/
def applyPatch (s : ProjectSession) (p : SessionPatch) : ProjectSession :=
  { s with
    endMs := match p.endMs with | some v => some v | none => s.endMs
    focused := p.focused.getD s.focused
    idle := p.idle.getD s.idle }

/-- A line of sessions.jsonl. -/
inductive SessionLine where
  | create (session : ProjectSession)
  | update (sessionId : String) (patch : SessionPatch)
deriving Repr, DecidableEq

/-- One step of SessionRepository.getAll (dashboardView.ts): create sets
the session under its id; update patches an existing entry and is
silently dropped when the create has not been seen. -/
def sessionsStep (m : List (String × ProjectSession)) :
    SessionLine → List (String × ProjectSession)
  | SessionLine.create s => mapSet m s.id s
  | SessionLine.update sid patch =>
      match mapLookup m sid with
      | none => m
      | some prev => mapSet m sid (applyPatch prev patch)

/-- Reconstruction map of SessionRepository.getAll. -/
def sessionsMap (records : List SessionLine) : List (String × ProjectSession) :=
  records.foldl sessionsStep []

/-- SessionRepository.getAll (dashboardView.ts). -/
def sessionsGetAll (records : List SessionLine) : List ProjectSession :=
  mapValues (sessionsMap records)

/-- SessionRepository.getActiveSessions (dashboardView.ts): the active
filter (same truthiness test as the engine) followed by sort with the
comparator (a, b) => b.startMs - a.startMs, i.e. a stable descending sort
by startMs; modelled by stable insertion sort under the total relation
b.startMs ≤ a.startMs. -/
def getActiveSessions (records : List SessionLine) (atTimestampMs : Int) :
    List ProjectSession :=
  List.insertionSort (fun a b => b.startMs ≤ a.startMs)
    ((sessionsGetAll records).filter (fun s => isActiveJs atTimestampMs s))

/-! ### Sync coordinator -/

/-- LOOKBACK_MS (sync.ts): 5 * 60_000. -/
def LOOKBACK_MS : Int := 5 * 60000

/-- The effective fetch start computed by runSync (sync.ts line 33),
generalized over the lookback constant:
Math.max(opts.startMs, Math.max(0, previousHighWater - lookback)). -/
def effectiveStartMs (startMs previousHighWater lookback : Int) : Int :=
  max startMs (max 0 (previousHighWater - lookback))

/-- C2 counterexample: with a stored high-water mark of 100000 and a
lookback of 5000, a sync requested at startMs 200000 fetches from 200000,
not from the 195000 the claim asserts; the same holds with the lookback
constant the source actually uses (300000). -/
theorem effectiveStartMs_claim_cex :
    effectiveStartMs 200000 100000 5000 = 200000 ∧
    effectiveStartMs 200000 100000 5000 ≠ 195000 ∧
    effectiveStartMs 200000 100000 LOOKBACK_MS = 200000 := by
  refine ⟨by decide, ?_, by decide⟩
  intro h
  rw [show effectiveStartMs 200000 100000 5000 = 200000 from by decide] at h
  exact absurd h (by decide)

/-- C2 (amended): the spec formula for the effective fetch start holds of
the code, and at the claim's inputs (lastFetchedMs 100000, lookback 5000,
requested start 200000) it yields 200000; the lookback only moves the
fetch start below the requested start when the stored high-water mark
lies within the lookback window of it, e.g. a cursor at 200000 with
requested start 195000 fetches from 195000. -/
theorem effectiveStartMs_formula :
    (∀ r h l : Int, effectiveStartMs r h l = max r (max 0 (h - l))) ∧
    effectiveStartMs 200000 100000 5000 = 200000 ∧
    effectiveStartMs 195000 200000 5000 = 195000 := by
  exact ⟨fun r h l => rfl, by decide, by decide⟩

/-- Sync cursor (packages/core/src/types.ts, SyncState). -/
structure SyncState where
  source : String
  lastFetchedMs : Int
  lastSyncAtMs : Int
  lastError : Option String
deriving Repr, DecidableEq

/-- Time window of a sync request (sync.ts, SyncOptions). -/
structure SyncOptions where
  startMs : Int
  endMs : Int
deriving Repr, DecidableEq

/-- The stored high-water mark: state?.lastFetchedMs ?? 0 (sync.ts). -/
def prevHighWater (state : Option SyncState) : Int :=
  match state with
  | some s => s.lastFetchedMs
  | none => 0

/-- The maxSeenEventMs loop of runSync: starts at the previous high-water
mark and raises it to any strictly larger event timestamp. -/
def maxSeen (previousHighWater : Int) (events : List UsageEvent) : Int :=
  events.foldl (fun m e => if e.timestampMs > m then e.timestampMs else m)
    previousHighWater

/-- Everything runSync (sync.ts) produces: the value returned or the
error propagated, the cursor upserted into sync_state, and the lines
appended to the events and attributions logs. -/
structure SyncOutcome where
  result : Except String Nat
  cursor : SyncState
  eventAppends : List EventLine
  attributionAppends : List AttribLine

/-- runSync (sync.ts). The external fetch (connector client plus secret
lookup) is a parameter returning either events or a thrown error message.
On a throw, the cursor is upserted with the previous high-water mark and
the error string, and the error propagates (modelled as the error
result). On success every event is appended as an upsert, attributed
against the sessions active at its timestamp, the attribution appended,
and the cursor upserted with the maximum observed event timestamp and no
error. -/
def runSync (state : Option SyncState) (source : String)
    (fetch : Int → Int → Except String (List UsageEvent))
    (sessionLog : List SessionLine) (opts : SyncOptions) (now : Int) :
    SyncOutcome :=
  match fetch (effectiveStartMs opts.startMs (prevHighWater state) LOOKBACK_MS)
      opts.endMs with
  | Except.error msg =>
      { result := Except.error msg
        cursor := { source := source, lastFetchedMs := prevHighWater state,
                    lastSyncAtMs := now, lastError := some msg }
        eventAppends := []
        attributionAppends := [] }
  | Except.ok events =>
      { result := Except.ok events.length
        cursor := { source := source,
                    lastFetchedMs := maxSeen (prevHighWater state) events,
                    lastSyncAtMs := now, lastError := none }
        eventAppends := events.map EventLine.upsert
        attributionAppends := events.filterMap (fun e =>
          ((attributeEvent e (getActiveSessions sessionLog e.timestampMs)).attribution).map
            AttribLine.upsert) }

/-- One call in a sequence of syncs against the same source. -/
structure SyncCall where
  fetch : Int → Int → Except String (List UsageEvent)
  opts : SyncOptions
  now : Int

/-- The cursor states persisted by a sequence of runSync calls, each call
reading the cursor the previous one persisted. -/
def runSyncSeq (source : String) (sessionLog : List SessionLine) :
    Option SyncState → List SyncCall → List SyncState
  | _, [] => []
  | st, c :: cs =>
      let next := (runSync st source c.fetch sessionLog c.opts c.now).cursor
      next :: runSyncSeq source sessionLog (some next) cs

/-- The persisted high-water marks along a sequence of syncs. -/
def cursorTrace (init : Option SyncState) (source : String)
    (sessionLog : List SessionLine) (calls : List SyncCall) : List Int :=
  (runSyncSeq source sessionLog init calls).map (fun s => s.lastFetchedMs)

theorem maxSeen_ge (events : List UsageEvent) :
    ∀ m : Int, m ≤ maxSeen m events := by
  induction events with
  | nil => intro m; exact le_refl m
  | cons e rest ih =>
      intro m
      unfold maxSeen
      rw [List.foldl_cons]
      by_cases hgt : e.timestampMs > m
      · simpa [hgt] using le_trans (le_of_lt hgt) (ih e.timestampMs)
      · simpa [hgt] using ih m

theorem maxSeen_mem_bound (events : List UsageEvent) :
    ∀ m : Int, (∀ e ∈ events, e.timestampMs ≤ maxSeen m events) ∧
      (maxSeen m events = m ∨ maxSeen m events ∈ events.map (fun e => e.timestampMs)) := by
  induction events with
  | nil => intro m; exact ⟨fun e he => absurd he (List.not_mem_nil e), Or.inl rfl⟩
  | cons e rest ih =>
      intro m
      have hstep : maxSeen m (e :: rest) =
          maxSeen (if e.timestampMs > m then e.timestampMs else m) rest := by
        unfold maxSeen
        rw [List.foldl_cons]
      constructor
      · intro e' he'
        rcases List.mem_cons.mp he' with h1 | h1
        · rw [h1, hstep]
          by_cases hgt : e.timestampMs > m
          · simpa [hgt] using maxSeen_ge rest e.timestampMs
          · have hle : e.timestampMs ≤ m := le_of_not_lt hgt
            simpa [hgt] using le_trans hle (maxSeen_ge rest m)
        · rw [hstep]
          by_cases hgt : e.timestampMs > m
          · simpa [hgt] using (ih e.timestampMs).1 e' h1
          · simpa [hgt] using (ih m).1 e' h1
      · rw [hstep]
        by_cases hgt : e.timestampMs > m
        · rcases (ih e.timestampMs).2 with h1 | h1
          · exact Or.inr (by simpa [hgt] using Or.inl h1)
          · exact Or.inr (by simpa [hgt] using Or.inr h1)
        · rcases (ih m).2 with h1 | h1
          · exact Or.inl (by simpa [hgt] using h1)
          · exact Or.inr (by simpa [hgt] using Or.inr h1)

theorem runSync_step_ge (state : Option SyncState) (source : String)
    (fetch : Int → Int → Except String (List UsageEvent))
    (sessionLog : List SessionLine) (opts : SyncOptions) (now : Int) :
    prevHighWater state ≤
      (runSync state source fetch sessionLog opts now).cursor.lastFetchedMs := by
  unfold runSync
  cases hf : fetch (effectiveStartMs opts.startMs (prevHighWater state) LOOKBACK_MS)
      opts.endMs with
  | error msg => exact le_refl _
  | ok events => exact maxSeen_ge events (prevHighWater state)

/-- C3: across any sequence of runSync calls against one source the
persisted lastFetchedMs values never decrease (each is at least the
previous high-water mark); a sync whose fetch throws persists the cursor
with lastFetchedMs unchanged, records the error string, propagates the
error, and appends nothing; and a successful sync persists the maximum
observed event timestamp: at least the previous mark, an upper bound on
every fetched event timestamp, and either the previous mark itself or
one of the fetched timestamps. -/
theorem runSync_cursor_monotone_and_failure :
    (∀ (init : Option SyncState) (source : String) (sessionLog : List SessionLine)
        (calls : List SyncCall),
      List.Chain' (fun a b => a ≤ b)
        (prevHighWater init :: cursorTrace init source sessionLog calls)) ∧
    (∀ (state : Option SyncState) (source : String)
        (fetch : Int → Int → Except String (List UsageEvent))
        (sessionLog : List SessionLine) (opts : SyncOptions) (now : Int) (msg : String),
      fetch (effectiveStartMs opts.startMs (prevHighWater state) LOOKBACK_MS) opts.endMs =
          Except.error msg →
      runSync state source fetch sessionLog opts now =
        { result := Except.error msg
          cursor := { source := source, lastFetchedMs := prevHighWater state,
                      lastSyncAtMs := now, lastError := some msg }
          eventAppends := []
          attributionAppends := [] }) ∧
    (∀ (state : Option SyncState) (source : String)
        (fetch : Int → Int → Except String (List UsageEvent))
        (sessionLog : List SessionLine) (opts : SyncOptions) (now : Int)
        (events : List UsageEvent),
      fetch (effectiveStartMs opts.startMs (prevHighWater state) LOOKBACK_MS) opts.endMs =
          Except.ok events →
      (runSync state source fetch sessionLog opts now).cursor.lastError = none ∧
      prevHighWater state ≤
        (runSync state source fetch sessionLog opts now).cursor.lastFetchedMs ∧
      (∀ e ∈ events, e.timestampMs ≤
        (runSync state source fetch sessionLog opts now).cursor.lastFetchedMs) ∧
      ((runSync state source fetch sessionLog opts now).cursor.lastFetchedMs =
          prevHighWater state ∨
        (runSync state source fetch sessionLog opts now).cursor.lastFetchedMs ∈
          events.map (fun e => e.timestampMs))) := by
  refine ⟨?_, ?_, ?_⟩
  · intro init source sessionLog calls
    induction calls generalizing init with
    | nil => simp [cursorTrace, runSyncSeq]
    | cons c cs ih =>
        have hstep := runSync_step_ge init source c.fetch sessionLog c.opts c.now
        have htail := ih (some ((runSync init source c.fetch sessionLog c.opts c.now).cursor))
        unfold cursorTrace runSyncSeq
        rw [List.map_cons, List.chain'_cons]
        refine ⟨hstep, ?_⟩
        simpa [cursorTrace, prevHighWater] using htail
  · intro state source fetch sessionLog opts now msg hfail
    unfold runSync
    rw [hfail]
  · intro state source fetch sessionLog opts now events hok
    have hmb := maxSeen_mem_bound events (prevHighWater state)
    unfold runSync
    rw [hok]
    exact ⟨rfl, maxSeen_ge events (prevHighWater state), hmb.1, hmb.2⟩

/-- Concrete cursor state for the sync witnesses. -/
def cursorA : SyncState :=
  { source := "cursor-dashboard", lastFetchedMs := 100
    lastSyncAtMs := 0, lastError := none }

/-- Concrete sync window for the sync witnesses. -/
def optsA : SyncOptions :=
  { startMs := 0, endMs := 10 }

/-- A fetch that always throws. -/
def failFetch : Int → Int → Except String (List UsageEvent) :=
  fun _ _ => Except.error ("boom")

/-- C3 witness: a failing fetch at a concrete cursor leaves the stored
high-water mark at 100, records the error, propagates it, and appends
nothing. -/
theorem runSync_cursor_monotone_and_failure_witness :
    runSync (some cursorA) ("cursor-dashboard") failFetch [] optsA 7 =
      { result := Except.error ("boom")
        cursor := { source := "cursor-dashboard", lastFetchedMs := 100,
                    lastSyncAtMs := 7, lastError := some ("boom") }
        eventAppends := []
        attributionAppends := [] } :=
  runSync_cursor_monotone_and_failure.2.1 (some cursorA) ("cursor-dashboard")
    failFetch [] optsA 7 ("boom") rfl

/-! ### Raw JSONL scanning (readJsonl in schema.ts, log path)

The log scan splits the file content on the regex matching an optional
carriage return followed by a newline, skips lines that are blank after
trimming, and JSON-parses each remaining line inside a try/catch,
ignoring lines that fail to parse. JSON.parse is a host primitive, so it
enters the embedding as a parameter of type String to Option. -/

/-- Split on one newline, consuming an immediately preceding carriage
return; the accumulator holds the current line reversed. -/
def splitLinesAux : List Char → List Char → List String
  | [], acc => [String.mk acc.reverse]
  | c :: rest, acc =>
      if c = '\n' then
        (match acc with
         | '\r' :: acc2 => String.mk acc2.reverse
         | _ => String.mk acc.reverse) :: splitLinesAux rest []
      else splitLinesAux rest (c :: acc)

/-- content.split of the regex carriage-return? newline. -/
def splitLines (content : String) : List String :=
  splitLinesAux content.data []

/-- JavaScript falsiness of line.trim(): the line is all whitespace. -/
def isBlank (line : String) : Bool :=
  line.data.all (fun c => c.isWhitespace)

/-- The readJsonl log-scan loop (schema.ts): for each line, skip it when
blank, otherwise push the parse result when parsing succeeds and ignore
the line when parsing throws. -/
def readJsonlLines {T : Type} (parse : String → Option T) (content : String) :
    List T :=
  (splitLines content).foldl
    (fun out line =>
      if isBlank line then out
      else
        match parse line with
        | some v => out ++ [v]
        | none => out)
    []

/-- What one line contributes: nothing when blank or unparsable. -/
def lineParse {T : Type} (parse : String → Option T) (line : String) : Option T :=
  if isBlank line then none else parse line

theorem readJsonl_foldl_eq_filterMap {T : Type} (parse : String → Option T) :
    ∀ (ls : List String) (acc : List T),
      ls.foldl
        (fun out line =>
          if isBlank line then out
          else
            match parse line with
            | some v => out ++ [v]
            | none => out)
        acc = acc ++ ls.filterMap (lineParse parse) := by
  intro ls
  induction ls with
  | nil => intro acc; simp
  | cons line rest ih =>
      intro acc
      rw [List.foldl_cons, List.filterMap_cons]
      by_cases hb : isBlank line
      · simp only [if_pos hb, lineParse]
        rw [ih acc]
      · simp only [if_neg hb, lineParse]
        cases hp : parse line with
        | none =>
            simp only [hp]
            rw [ih acc]
        | some v =>
            simp only [hp]
            rw [ih (acc ++ [v])]
            simp

/-- C6: the log scan returns exactly the parse results of the non-blank
parseable lines, in file order, skipping every line that fails to parse
without raising; in particular when the last line of the file is a
truncated record (a crash mid-append, so it fails to parse), the scan
still returns all prior well-formed records. -/
theorem readJsonl_skips_and_tolerates_truncation :
    (∀ (T : Type) (parse : String → Option T) (content : String),
      readJsonlLines parse content =
        (splitLines content).filterMap (lineParse parse)) ∧
    (∀ (T : Type) (parse : String → Option T) (content : String)
        (L : List String) (P : String),
      splitLines content = L ++ [P] → parse P = none →
      readJsonlLines parse content = L.filterMap (lineParse parse)) := by
  have hmain : ∀ (T : Type) (parse : String → Option T) (content : String),
      readJsonlLines parse content =
        (splitLines content).filterMap (lineParse parse) := by
    intro T parse content
    unfold readJsonlLines
    rw [readJsonl_foldl_eq_filterMap]
    simp
  refine ⟨hmain, ?_⟩
  intro T parse content L P hsplit hP
  rw [hmain, hsplit, List.filterMap_append]
  have hlast : lineParse parse P = none := by
    unfold lineParse
    by_cases hb : isBlank P
    · simp [hb]
    · simp [hb, hP]
  simp [hlast]

/-- Tiny concrete parser standing in for JSON.parse in the witness: a
nonempty all-digit line parses to the number it spells. -/
def parseDigits (line : String) : Option Nat :=
  if (!line.data.isEmpty) && line.data.all (fun c => c.isDigit) then
    some (line.data.foldl (fun n c => 10 * n + (c.toNat - 48)) 0)
  else none

/-- C6 witness: a file of two records whose third line was cut off
mid-append still yields the two prior records. -/
theorem readJsonl_skips_and_tolerates_truncation_witness :
    readJsonlLines parseDigits ("12\n7\n34a") = [12, 7] := by
  have h := readJsonl_skips_and_tolerates_truncation.2 Nat parseDigits
    ("12\n7\n34a") ["12", "7"] ("34a") (by decide) (by decide)
  rw [h]
  decide

/-! ### Projects store and per-kind read resolution -/

/-- A project row (packages/core/src/types.ts, Project). -/
structure Project where
  projectKey : String
  displayName : String
  gitRemote : Option String
  workspacePath : String
  createdAt : Int
  lastActiveAt : Int
deriving Repr, DecidableEq, Inhabited

/-- A line of projects.jsonl: an upsert wrapper, or a bare entity from
the snapshot fast path (which has no project field). -/
inductive ProjectLine where
  | upsert (project : Project)
  | bare (project : Project)
deriving Repr, DecidableEq

/-- The r?.project access of ProjectRepository.getAll. -/
def projectField : ProjectLine → Option Project
  | ProjectLine.upsert p => some p
  | ProjectLine.bare _ => none

/-- One step of ProjectRepository.getAll (dashboardView.ts): skip unless
the projectKey is truthy; keep the stored row unless the incoming row's
lastActiveAt is at least as large (ties go to the later line). -/
def projectsStep (m : List (String × Project)) (p : Project) :
    List (String × Project) :=
  if p.projectKey = "" then m
  else
    match mapLookup m p.projectKey with
    | none => mapSet m p.projectKey p
    | some prev =>
        if prev.lastActiveAt ≤ p.lastActiveAt then mapSet m p.projectKey p else m

/-- One line of the getAll loop: read the project field, then step. -/
def projectsLineStep (m : List (String × Project)) (r : ProjectLine) :
    List (String × Project) :=
  match projectField r with
  | none => m
  | some p => projectsStep m p

/-- Reconstruction map of ProjectRepository.getAll. -/
def projectsFold (records : List ProjectLine) : List (String × Project) :=
  records.foldl projectsLineStep []

/-- ProjectRepository.getAll (dashboardView.ts): merge to the row with
the largest lastActiveAt per key, then sort descending by lastActiveAt
(stable comparator sort in the source, stable insertion sort here). -/
def projectsGetAll (records : List ProjectLine) : List Project :=
  List.insertionSort (fun a b => b.lastActiveAt ≤ a.lastActiveAt)
    (mapValues (projectsFold records))

theorem projectsLineStep_eq_filterMap (records : List ProjectLine) :
    ∀ m : List (String × Project),
      records.foldl projectsLineStep m =
        (records.filterMap projectField).foldl projectsStep m := by
  induction records with
  | nil => intro m; rfl
  | cons r rest ih =>
      intro m
      rw [List.foldl_cons, List.filterMap_cons]
      cases r with
      | upsert p => simpa [projectsLineStep, projectField] using ih (projectsStep m p)
      | bare p => simpa [projectsLineStep, projectField] using ih m

theorem projectsStep_mem {m : List (String × Project)} {p : Project}
    {kv : String × Project} (h : kv ∈ projectsStep m p) :
    kv ∈ m ∨ kv = (p.projectKey, p) := by
  unfold projectsStep at h
  by_cases hk : p.projectKey = ""
  · rw [if_pos hk] at h
    exact Or.inl h
  · rw [if_neg hk] at h
    cases hl : mapLookup m p.projectKey with
    | none =>
        rw [hl] at h
        rcases mem_mapSet h with h1 | h1
        · exact Or.inr h1
        · exact Or.inl h1
    | some prev =>
        rw [hl] at h
        dsimp only at h
        by_cases hle : prev.lastActiveAt ≤ p.lastActiveAt
        · rw [if_pos hle] at h
          rcases mem_mapSet h with h1 | h1
          · exact Or.inr h1
          · exact Or.inl h1
        · rw [if_neg hle] at h
          exact Or.inl h

theorem projectsStep_tag_nodup {m : List (String × Project)} (p : Project)
    (h1 : ∀ kv ∈ m, kv.2.projectKey = kv.1 ∧ kv.1 ≠ "")
    (h2 : (mapKeys m).Nodup) :
    (∀ kv ∈ projectsStep m p, kv.2.projectKey = kv.1 ∧ kv.1 ≠ "") ∧
      (mapKeys (projectsStep m p)).Nodup := by
  constructor
  · intro kv hkv
    rcases projectsStep_mem hkv with h3 | h3
    · exact h1 kv h3
    · rw [h3]
      refine ⟨rfl, ?_⟩
      intro he
      unfold projectsStep at hkv
      rw [if_pos he] at hkv
      rcases h1 kv hkv with ⟨_, hne⟩
      rw [h3] at hne
      exact hne he
  · unfold projectsStep
    by_cases hk : p.projectKey = ""
    · simpa [hk] using h2
    · rw [if_neg hk]
      cases mapLookup m p.projectKey with
      | none => exact mapKeys_mapSet_nodup m _ _ h2
      | some prev =>
          by_cases hle : prev.lastActiveAt ≤ p.lastActiveAt
          · simpa [hle] using mapKeys_mapSet_nodup m _ _ h2
          · simpa [hle] using h2

theorem projectsStep_lookup_mono {m : List (String × Project)} (p : Project)
    {k : String} {v : Project} (h : mapLookup m k = some v) :
    ∃ v2, mapLookup (projectsStep m p) k = some v2 ∧
      v.lastActiveAt ≤ v2.lastActiveAt := by
  unfold projectsStep
  by_cases hk : p.projectKey = ""
  · exact ⟨v, by rw [if_pos hk]; exact h, le_refl _⟩
  · rw [if_neg hk]
    cases hl : mapLookup m p.projectKey with
    | none =>
        have hne : p.projectKey ≠ k := by
          intro he
          rw [he, h] at hl
          cases hl
        exact ⟨v, by rw [mapLookup_mapSet_ne m _ _ _ hne]; exact h, le_refl _⟩
    | some prev =>
        dsimp only
        by_cases hle : prev.lastActiveAt ≤ p.lastActiveAt
        · rw [if_pos hle]
          by_cases hkk : p.projectKey = k
          · subst hkk
            have hv : prev = v := by
              rw [h] at hl
              exact (Option.some.inj hl).symm
            refine ⟨p, mapLookup_mapSet_self m _ _, ?_⟩
            rw [← hv]
            exact hle
          · exact ⟨v, by rw [mapLookup_mapSet_ne m _ _ _ hkk]; exact h, le_refl _⟩
        · rw [if_neg hle]
          exact ⟨v, h, le_refl _⟩

theorem projectsFold_lookup_mono (records : List Project) :
    ∀ (m : List (String × Project)) (k : String) (v : Project),
      mapLookup m k = some v →
      ∃ v2, mapLookup (records.foldl projectsStep m) k = some v2 ∧
        v.lastActiveAt ≤ v2.lastActiveAt := by
  induction records with
  | nil => intro m k v h; exact ⟨v, h, le_refl _⟩
  | cons p rest ih =>
      intro m k v h
      rw [List.foldl_cons]
      rcases projectsStep_lookup_mono p h with ⟨v1, hl1, hle1⟩
      rcases ih (projectsStep m p) k v1 hl1 with ⟨v2, hl2, hle2⟩
      exact ⟨v2, hl2, le_trans hle1 hle2⟩

theorem projectsStep_head_dominated {m : List (String × Project)} (p : Project)
    (hk : p.projectKey ≠ "") :
    ∃ v2, mapLookup (projectsStep m p) p.projectKey = some v2 ∧
      p.lastActiveAt ≤ v2.lastActiveAt := by
  unfold projectsStep
  rw [if_neg hk]
  cases hl : mapLookup m p.projectKey with
  | none => exact ⟨p, mapLookup_mapSet_self m _ _, le_refl _⟩
  | some prev =>
      dsimp only
      by_cases hle : prev.lastActiveAt ≤ p.lastActiveAt
      · rw [if_pos hle]
        exact ⟨p, mapLookup_mapSet_self m _ _, le_refl _⟩
      · rw [if_neg hle]
        exact ⟨prev, hl, le_of_lt (lt_of_not_le hle)⟩

theorem projectsFold_inv (records : List Project) :
    ∀ m : List (String × Project),
      (∀ kv ∈ m, kv.2.projectKey = kv.1 ∧ kv.1 ≠ "") →
      (mapKeys m).Nodup →
      (∀ kv ∈ records.foldl projectsStep m, kv.2.projectKey = kv.1 ∧ kv.1 ≠ "") ∧
      (mapKeys (records.foldl projectsStep m)).Nodup ∧
      (∀ kv ∈ records.foldl projectsStep m,
        (kv.2 ∈ records ∨ kv ∈ m) ∧
        (∀ q ∈ records, q.projectKey = kv.1 → q.lastActiveAt ≤ kv.2.lastActiveAt)) := by
  induction records with
  | nil =>
      intro m h1 h2
      exact ⟨h1, h2, fun kv hkv =>
        ⟨Or.inr hkv, fun q hq => absurd hq (List.not_mem_nil q)⟩⟩
  | cons p rest ih =>
      intro m h1 h2
      have hstep := projectsStep_tag_nodup p h1 h2
      have hrec := ih (projectsStep m p) hstep.1 hstep.2
      rw [List.foldl_cons]
      refine ⟨hrec.1, hrec.2.1, ?_⟩
      intro kv hkv
      have hmem := (hrec.2.2 kv hkv).1
      have hdomrest := (hrec.2.2 kv hkv).2
      constructor
      · rcases hmem with h3 | h3
        · exact Or.inl (List.mem_cons_of_mem _ h3)
        · rcases projectsStep_mem h3 with h4 | h4
          · exact Or.inr h4
          · exact Or.inl (by rw [h4]; exact List.mem_cons_self _ _)
      · intro q hq hqk
        rcases List.mem_cons.mp hq with h3 | h3
        · subst h3
          have hk1 : kv.1 ≠ "" := (hrec.1 kv hkv).2
          have hkq : q.projectKey ≠ "" := by rw [hqk]; exact hk1
          rcases projectsStep_head_dominated (m := m) q hkq with ⟨v1, hl1, hle1⟩
          rw [hqk] at hl1
          rcases projectsFold_lookup_mono rest (projectsStep m q) kv.1 v1 hl1 with
            ⟨v2, hl2, hle2⟩
          have hlkv : mapLookup (rest.foldl projectsStep (projectsStep m q)) kv.1 =
              some kv.2 := mapLookup_of_mem_nodup hrec.2.1 hkv
          rw [hlkv] at hl2
          have hv2 : kv.2 = v2 := Option.some.inj hl2
          rw [← hv2] at hle2
          exact le_trans hle1 hle2
        · exact hdomrest q h3 hqk

/-- Concrete duplicate-key events for the C8 counterexample: same
eventId, different model. -/
def evDupA : UsageEvent :=
  { eventId := "dup-1", timestampMs := 1000, source := "cursor-dashboard"
    model := "gpt-4", inputTokens := 1, outputTokens := 1
    modelCents := 1, totalCents := 1 }

/-- Second record under the same eventId. -/
def evDupB : UsageEvent :=
  { eventId := "dup-1", timestampMs := 2000, source := "cursor-dashboard"
    model := "gpt-5", inputTokens := 2, outputTokens := 2
    modelCents := 2, totalCents := 2 }

/-- C8 counterexample: for the events kind, read-time reconstruction is
last-line-wins by file position, so swapping two log lines that share an
eventId changes the reconstructed entity set. -/
theorem events_reorder_changes_getAll_cex :
    eventsGetAll [EventLine.upsert evDupA, EventLine.upsert evDupB] = [evDupB] ∧
    eventsGetAll [EventLine.upsert evDupB, EventLine.upsert evDupA] = [evDupA] ∧
    eventsGetAll [EventLine.upsert evDupA, EventLine.upsert evDupB] ≠
      eventsGetAll [EventLine.upsert evDupB, EventLine.upsert evDupA] := by
  decide

/-- C8 (amended): resolution by an explicit monotonic field holds for the
projects kind (and the budgets kind, whose getAll is the same loop over
updatedAt): every project returned by ProjectRepository.getAll appears in
the log and carries the largest lastActiveAt among all log rows with its
key, regardless of their order. For the events kind (and likewise
attributions, sessions and sync_state) resolution is instead
last-line-wins by file position: a later upsert with the same eventId
always overrides earlier ones whatever its field values, so reordering
same-key lines can change the reconstructed set. -/
theorem read_resolution_by_kind (records : List ProjectLine) (p : Project)
    (hp : p ∈ projectsGetAll records) :
    (p ∈ records.filterMap projectField ∧
      ∀ q ∈ records.filterMap projectField, q.projectKey = p.projectKey →
        q.lastActiveAt ≤ p.lastActiveAt) ∧
    (∀ (L : List EventLine) (e : UsageEvent), e.eventId ≠ "" →
      mapLookup (eventsMap (L ++ [EventLine.upsert e])) e.eventId = some e) := by
  constructor
  · have hp2 : p ∈ mapValues (projectsFold records) := by
      have := (List.mem_insertionSort (fun a b => b.lastActiveAt ≤ a.lastActiveAt)
        (l := mapValues (projectsFold records))).mp hp
      exact this
    have hp3 : ∃ kv ∈ projectsFold records, kv.2 = p := by
      rcases List.mem_map.mp hp2 with ⟨kv, hkv, hkvp⟩
      exact ⟨kv, hkv, hkvp⟩
    rcases hp3 with ⟨kv, hkv, hkvp⟩
    have hfold : projectsFold records =
        (records.filterMap projectField).foldl projectsStep [] := by
      unfold projectsFold
      exact projectsLineStep_eq_filterMap records []
    rw [hfold] at hkv
    have hinv := projectsFold_inv (records.filterMap projectField) []
      (by intro kv2 h; cases h) (by simp [mapKeys])
    have htag := hinv.1 kv hkv
    have hprop := hinv.2.2 kv hkv
    constructor
    · rcases hprop.1 with h3 | h3
      · rw [← hkvp]; exact h3
      · cases h3
    · intro q hq hqk
      have := hprop.2 q hq (by rw [hqk, ← hkvp]; exact htag.1)
      rw [← hkvp]
      exact this
  · intro L e he
    have hsingle : eventsMap (L ++ [EventLine.upsert e]) =
        mapSet (eventsMap L) e.eventId e := by
      unfold eventsMap
      rw [List.foldl_append]
      simp [eventsStep, he]
    rw [hsingle]
    exact mapLookup_mapSet_self _ _ _

/-- Fresher of the two duplicate-key project rows for the C8 witness. -/
def projNew : Project :=
  { projectKey := "pk", displayName := "new", gitRemote := none
    workspacePath := "/w", createdAt := 0, lastActiveAt := 9 }

/-- Staler project row appearing later in the file. -/
def projOld : Project :=
  { projectKey := "pk", displayName := "old", gitRemote := none
    workspacePath := "/w", createdAt := 0, lastActiveAt := 3 }

/-- C8 amended witness: the theorem at a two-line projects log where the
lower-lastActiveAt row comes last by position but loses the merge. -/
theorem read_resolution_by_kind_witness :
    projNew ∈
      [ProjectLine.upsert projNew, ProjectLine.upsert projOld].filterMap
        projectField :=
  (read_resolution_by_kind
    [ProjectLine.upsert projNew, ProjectLine.upsert projOld] projNew
    (by decide)).1.1

/-! ### Session tracker (sessionTracker.ts, ProjectSessionTracker)

The tracker's in-memory fields, with vscode callbacks modelled as
functions of the tracker state plus explicit time, fresh uuid and host
workspace-folder inputs. The no-current-session fallback of
rotateSession delegates to ensureSessionForCurrentWorkspace, which
depends on host-editor state; it enters the model as a parameter and the
rotation theorem is conditioned on an open session, where the source
never takes that branch. -/

structure TrackerState where
  currentSessionId : Option String
  currentProjectKey : Option String
  currentWorkspaceFolders : List String
  currentWorkspacePath : Option String
  idle : Bool
  focused : Bool
  lastActivityAt : Int
  ideInstanceId : String
  ideType : String
deriving Repr, DecidableEq

/-- ProjectSessionTracker.endCurrentSession: patch the open session's
endMs to now and clear the current fields; a no-op without a current
session. Returns the new state and the appended log lines. -/
def endCurrentSession (st : TrackerState) (now : Int) :
    TrackerState × List SessionLine :=
  match st.currentSessionId with
  | none => (st, [])
  | some sid =>
      ({ st with currentSessionId := none, currentProjectKey := none,
                 currentWorkspaceFolders := [], currentWorkspacePath := none },
       [SessionLine.update sid { endMs := some now }])

/-- ProjectSessionTracker.rotateSession: close the current segment and
open a new one for the same project with the current focused and idle
flags. JavaScript truthiness: an empty current id, key or path also
takes the fallback branch. -/
def rotateSession (st : TrackerState) (now : Int) (newId : String)
    (hostFolders : List String)
    (ensureFallback : TrackerState → TrackerState × List SessionLine) :
    TrackerState × List SessionLine :=
  match st.currentProjectKey, st.currentSessionId, st.currentWorkspacePath with
  | some projectKey, some sid, some workspacePath =>
      if projectKey = "" ∨ sid = "" ∨ workspacePath = "" then ensureFallback st
      else
        let prevFolders := st.currentWorkspaceFolders
        let r1 := endCurrentSession st now
        let folders := if prevFolders.isEmpty then hostFolders else prevFolders
        let s : ProjectSession :=
          { id := newId, projectKey := projectKey, workspaceFolders := folders,
            startMs := now, endMs := none, focused := st.focused, idle := st.idle,
            ideInstanceId := st.ideInstanceId, ideType := st.ideType }
        ({ r1.1 with currentSessionId := some newId,
                     currentProjectKey := some projectKey,
                     currentWorkspaceFolders := s.workspaceFolders,
                     currentWorkspacePath := some workspacePath },
         r1.2 ++ [SessionLine.create s])
  | _, _, _ => ensureFallback st

/-- The onDidChangeWindowState handler (sessionTracker.ts start): record
the new focus, reset activity (clearing idle), then rotate when the
focus flag actually flipped, else just write a flags update. -/
def onWindowStateChanged (st : TrackerState) (newFocused : Bool) (now : Int)
    (newId : String) (hostFolders : List String)
    (ensureFallback : TrackerState → TrackerState × List SessionLine) :
    TrackerState × List SessionLine :=
  let prevFocused := st.focused
  let st2 := { st with focused := newFocused, lastActivityAt := now, idle := false }
  if prevFocused ≠ newFocused then
    rotateSession st2 now newId hostFolders ensureFallback
  else
    match st2.currentSessionId with
    | none => (st2, [])
    | some sid =>
        (st2, [SessionLine.update sid { focused := some st2.focused,
                                        idle := some st2.idle }])

/-- C9: a focus flip at t = 500 while a session opened at t = 0 is
current appends exactly one endMs patch and one create line; after
replaying the log, the old session is closed with endMs = 500 and keeps
its project key and start, and the new session starts at 500 under the
same project key with the new focus flag. -/
theorem focus_change_rotates_session (L : List SessionLine) (st : TrackerState)
    (sid newId pk wp : String) (s : ProjectSession) (newFocused : Bool)
    (hostFolders : List String)
    (ensureFallback : TrackerState → TrackerState × List SessionLine)
    (hsid : st.currentSessionId = some sid)
    (hpk : st.currentProjectKey = some pk)
    (hwp : st.currentWorkspacePath = some wp)
    (hpk0 : pk ≠ "") (hsid0 : sid ≠ "") (hwp0 : wp ≠ "")
    (hfoc : st.focused ≠ newFocused)
    (hlk : mapLookup (sessionsMap L) sid = some s)
    (hspk : s.projectKey = pk)
    (hstart : s.startMs = 0)
    (hne : sid ≠ newId) :
    ∃ s2 : ProjectSession,
      (onWindowStateChanged st newFocused 500 newId hostFolders ensureFallback).2 =
        [SessionLine.update sid { endMs := some 500 }, SessionLine.create s2] ∧
      mapLookup (sessionsMap
          (L ++ (onWindowStateChanged st newFocused 500 newId hostFolders
            ensureFallback).2)) sid = some { s with endMs := some 500 } ∧
      ({ s with endMs := some (500 : Int) }).projectKey = pk ∧
      ({ s with endMs := some (500 : Int) }).startMs = 0 ∧
      mapLookup (sessionsMap
          (L ++ (onWindowStateChanged st newFocused 500 newId hostFolders
            ensureFallback).2)) newId = some s2 ∧
      s2.startMs = 500 ∧ s2.projectKey = pk ∧ s2.endMs = none ∧
      s2.focused = newFocused := by
  have hguard : ¬ (pk = "" ∨ sid = "" ∨ wp = "") := by
    intro h
    rcases h with h | h | h
    · exact hpk0 h
    · exact hsid0 h
    · exact hwp0 h
  have hw : (onWindowStateChanged st newFocused 500 newId hostFolders
      ensureFallback).2 =
      [SessionLine.update sid { endMs := some 500 },
        SessionLine.create
          { id := newId, projectKey := pk,
            workspaceFolders := if st.currentWorkspaceFolders.isEmpty then
              hostFolders else st.currentWorkspaceFolders,
            startMs := 500, endMs := none, focused := newFocused,
            idle := false, ideInstanceId := st.ideInstanceId,
            ideType := st.ideType }] := by
    unfold onWindowStateChanged
    rw [if_pos hfoc]
    unfold rotateSession
    simp only [hpk, hsid, hwp]
    rw [if_neg hguard]
    unfold endCurrentSession
    simp [hsid]
  refine ⟨_, hw, ?_, by rw [hspk], by rw [hstart], ?_, rfl, rfl, rfl, rfl⟩
  · rw [hw]
    unfold sessionsMap
    rw [List.foldl_append]
    simp only [List.foldl_cons, List.foldl_nil]
    rw [show List.foldl sessionsStep [] L = sessionsMap L from rfl]
    simp only [sessionsStep, hlk]
    rw [mapLookup_mapSet_ne _ newId sid _ (fun h => hne h.symm)]
    exact mapLookup_mapSet_self _ _ _
  · rw [hw]
    unfold sessionsMap
    rw [List.foldl_append]
    simp only [List.foldl_cons, List.foldl_nil]
    rw [show List.foldl sessionsStep [] L = sessionsMap L from rfl]
    simp only [sessionsStep, hlk]
    exact mapLookup_mapSet_self _ _ _

/-- Concrete open session for the C9 witness: project p1, opened at 0,
focused, not idle. -/
def sessOpen : ProjectSession :=
  { id := "sess-1", projectKey := "p1", workspaceFolders := ["/w"]
    startMs := 0, endMs := none, focused := true, idle := false
    ideInstanceId := "inst-1", ideType := "vscode" }

/-- Concrete tracker state for the C9 witness. -/
def trackerW : TrackerState :=
  { currentSessionId := some ("sess-1"), currentProjectKey := some ("p1")
    currentWorkspaceFolders := ["/w"], currentWorkspacePath := some ("/w")
    idle := false, focused := true, lastActivityAt := 0
    ideInstanceId := "inst-1", ideType := "vscode" }

/-- C9 witness: the rotation theorem at the concrete tracker, session
log and focus-loss event at t = 500. -/
theorem focus_change_rotates_session_witness :
    ∃ s2 : ProjectSession,
      (onWindowStateChanged trackerW false 500 ("sess-2") [] (fun st => (st, []))).2 =
        [SessionLine.update ("sess-1") { endMs := some 500 },
          SessionLine.create s2] ∧
      mapLookup (sessionsMap
          ([SessionLine.create sessOpen] ++
            (onWindowStateChanged trackerW false 500 ("sess-2") []
              (fun st => (st, []))).2)) ("sess-1") =
        some { sessOpen with endMs := some 500 } ∧
      ({ sessOpen with endMs := some (500 : Int) }).projectKey = "p1" ∧
      ({ sessOpen with endMs := some (500 : Int) }).startMs = 0 ∧
      mapLookup (sessionsMap
          ([SessionLine.create sessOpen] ++
            (onWindowStateChanged trackerW false 500 ("sess-2") []
              (fun st => (st, []))).2)) ("sess-2") = some s2 ∧
      s2.startMs = 500 ∧ s2.projectKey = "p1" ∧ s2.endMs = none ∧
      s2.focused = false :=
  focus_change_rotates_session [SessionLine.create sessOpen] trackerW
    ("sess-1") ("sess-2") ("p1") ("/w") sessOpen false [] (fun st => (st, []))
    rfl rfl rfl (by decide) (by decide) (by decide) (by decide)
    (by decide) rfl rfl (by decide)

/-! ### Conflict nominal ordering (claim C10) -/

theorem createConflictResult_shape (e : UsageEvent) (C : List ProjectSession)
    (reason : String) (hC : C ≠ [])
    (hsorted : List.Pairwise (fun a b => b.startMs ≤ a.startMs) C) :
    ∃ s rest, (createConflictResult e C reason).conflicts = s :: rest ∧
      (∃ att, (createConflictResult e C reason).attribution = some att ∧
        att.projectKey = s.projectKey) ∧
      ∀ s2 ∈ (createConflictResult e C reason).conflicts,
        s2.startMs ≤ s.startMs := by
  cases C with
  | nil => exact absurd rfl hC
  | cons s rest =>
      refine ⟨s, rest, rfl, ⟨_, rfl, rfl⟩, ?_⟩
      intro s2 hs2
      have hs2' : s2 ∈ s :: rest := hs2
      rcases List.mem_cons.mp hs2' with h | h
      · rw [h]
      · exact List.rel_of_pairwise_cons hsorted h

theorem getActiveSessions_sorted (records : List SessionLine) (t : Int) :
    List.Pairwise (fun a b => b.startMs ≤ a.startMs)
      (getActiveSessions records t) := by
  unfold getActiveSessions
  haveI htot : IsTotal ProjectSession (fun a b => b.startMs ≤ a.startMs) :=
    ⟨fun a b => le_total b.startMs a.startMs⟩
  haveI htrans : IsTrans ProjectSession (fun a b => b.startMs ≤ a.startMs) :=
    ⟨fun _ _ _ hab hbc => le_trans hbc hab⟩
  exact List.sorted_insertionSort
    (fun a b : ProjectSession => b.startMs ≤ a.startMs)
    ((sessionsGetAll records).filter (fun s => isActiveJs t s))

/-- C10: getActiveSessions returns the active sessions sorted descending
by startMs, and whenever attributing an event against that list yields a
conflict, the nominal attribution is the head of the conflict list,
whose startMs is maximal in the conflict set: the most recently started
session wins the nominal slot, not the earliest-started one. -/
theorem conflict_nominal_is_most_recent (records : List SessionLine)
    (e : UsageEvent)
    (hconf : (attributeEvent e (getActiveSessions records e.timestampMs)).conflicts ≠ []) :
    List.Pairwise (fun a b => b.startMs ≤ a.startMs)
      (getActiveSessions records e.timestampMs) ∧
    ∃ s rest,
      (attributeEvent e (getActiveSessions records e.timestampMs)).conflicts =
        s :: rest ∧
      (∃ att,
        (attributeEvent e (getActiveSessions records e.timestampMs)).attribution =
          some att ∧ att.projectKey = s.projectKey) ∧
      ∀ s2 ∈ (attributeEvent e (getActiveSessions records e.timestampMs)).conflicts,
        s2.startMs ≤ s.startMs := by
  have hsorted := getActiveSessions_sorted records e.timestampMs
  refine ⟨hsorted, ?_⟩
  have hfa : findActiveSessions e.timestampMs
      (getActiveSessions records e.timestampMs) =
      getActiveSessions records e.timestampMs := by
    unfold findActiveSessions
    apply List.filter_eq_self.mpr
    intro a ha
    unfold getActiveSessions at ha
    have ha2 := (List.mem_insertionSort _).mp ha
    exact List.of_mem_filter ha2
  unfold attributeEvent at hconf ⊢
  rw [hfa] at hconf ⊢
  unfold decisionLadder at hconf ⊢
  set A := getActiveSessions records e.timestampMs with hA
  by_cases h0 : A.length = 0
  · rw [if_pos h0] at hconf
    exact (hconf rfl).elim
  · rw [if_neg h0] at hconf ⊢
    simp only at hconf ⊢
    by_cases h1 : (List.filter (fun s => !s.idle)
        (List.filter (fun s => s.focused) A)).length = 1
    · rw [if_pos h1] at hconf
      exact (hconf rfl).elim
    · rw [if_neg h1] at hconf ⊢
      by_cases h2 : (List.filter (fun s => s.focused) A).length = 1
      · rw [if_pos h2] at hconf
        exact (hconf rfl).elim
      · rw [if_neg h2] at hconf ⊢
        by_cases h3 : A.length = 1
        · rw [if_pos h3] at hconf
          exact (hconf rfl).elim
        · rw [if_neg h3] at hconf ⊢
          by_cases h4 : (List.filter (fun s => s.focused) A).length > 1
          · rw [if_pos h4] at hconf ⊢
            refine createConflictResult_shape e _ _ ?_
              (List.Pairwise.filter _ hsorted)
            intro hnil
            rw [hnil] at h4
            exact absurd h4 (by decide)
          · rw [if_neg h4] at hconf ⊢
            refine createConflictResult_shape e _ _ ?_ hsorted
            intro hnil
            rw [hnil] at h0
            exact h0 rfl

/-- First focused session of the C10 witness, started at 0. -/
def wSess1 : ProjectSession :=
  { id := "w-1", projectKey := "p1", workspaceFolders := []
    startMs := 0, endMs := none, focused := true, idle := false
    ideInstanceId := "i-1", ideType := "vscode" }

/-- Second focused session of the C10 witness, started later at 10. -/
def wSess2 : ProjectSession :=
  { id := "w-2", projectKey := "p2", workspaceFolders := []
    startMs := 10, endMs := none, focused := true, idle := false
    ideInstanceId := "i-2", ideType := "cursor" }

/-- Session log of the C10 witness. -/
def sessionLogW : List SessionLine :=
  [SessionLine.create wSess1, SessionLine.create wSess2]

/-- C10 witness: two overlapping focused sessions at t = 1000; the
conflict list leads with the session started at 10 (the most recent),
and the nominal project is its key p2. -/
theorem conflict_nominal_is_most_recent_witness :
    List.Pairwise (fun a b => b.startMs ≤ a.startMs)
      (getActiveSessions sessionLogW ev1000.timestampMs) ∧
    ∃ s rest,
      (attributeEvent ev1000 (getActiveSessions sessionLogW ev1000.timestampMs)).conflicts =
        s :: rest ∧
      (∃ att,
        (attributeEvent ev1000
          (getActiveSessions sessionLogW ev1000.timestampMs)).attribution =
          some att ∧ att.projectKey = s.projectKey) ∧
      ∀ s2 ∈ (attributeEvent ev1000
          (getActiveSessions sessionLogW ev1000.timestampMs)).conflicts,
        s2.startMs ≤ s.startMs :=
  conflict_nominal_is_most_recent sessionLogW ev1000 (by decide)

end CodeMeter
